import Mathlib

/-!
Shallow embedding of `abcvoting/preferences.py` (classes `Profile` and `Voter`).

Modelling conventions:
* Python exceptions become `Except PyError`; the error taxonomy follows the spec's
  names (`DuplicateApproval` for the duplicate-entries `ValueError`, etc.).
* A Python `set` of candidates becomes a `Finset Int` once all elements are known to be
  integers; the raw constructor input (an arbitrary iterable of Python objects) is a
  `List PyObj`, and `set(approved)` is modelled by `List.dedup`.
* `float("inf")` as the default `num_cand` of `Voter.check_valid` is modelled by
  `Option Int` (`none` = infinity).
* Weights (`int` or `Fraction`) are modelled as `ℚ`.
* Mutation of a `Profile` becomes explicit state passing: each mutating method returns
  the updated profile together with its `Except` outcome.
* Python's `s[:-2]` on the ASCII output strings is modelled character-wise by
  dropping the last two characters.
-/

namespace Abc

/-- A Python object handed to the `Voter` constructor: either an `int` or some
non-integer object (modelled with a string tag so distinct non-integers exist). -/
inductive PyObj where
  | int : Int → PyObj
  | str : String → PyObj
deriving DecidableEq

/-- Error taxonomy of the spec; each constructor corresponds to one `raise` site in
`preferences.py`.  `NameError` models the read of the unassigned local variable in
`Profile.approved_candidates` when the cache field were non-`None` (dead branch). -/
inductive PyError where
  | DuplicateApproval
  | InvalidCandidateType
  | CandidateOutOfRange
  | InvalidWeight
  | InvalidArgument
  | IndexOutOfRange
  | NameError
deriving DecidableEq

instance {e a : Type} [DecidableEq e] [DecidableEq a] : DecidableEq (Except e a) :=
  fun x y =>
    match x, y with
    | .ok u, .ok v => if h : u = v then .isTrue (by rw [h]) else .isFalse (by simp [h])
    | .error u, .error v =>
      if h : u = v then .isTrue (by rw [h]) else .isFalse (by simp [h])
    | .ok _, .error _ => .isFalse (by simp)
    | .error _, .ok _ => .isFalse (by simp)

/-- A validated voter: `self.approved` (a set of integers) and `self.weight`. -/
structure Voter where
  approved : Finset Int
  weight : ℚ
deriving DecidableEq

/-- The integer elements of a list of Python objects. -/
def extractInts (l : List PyObj) : List Int :=
  l.filterMap fun o => match o with | .int n => some n | .str _ => none

/-- Insertion sort on the underlying list of a multiset of integers is invariant
under permutation, so it descends to the quotient (and, unlike `Finset.sort`,
it evaluates by structural recursion). -/
def sortedOf (s : Multiset Int) : List Int :=
  Quotient.liftOn s (List.insertionSort (· ≤ ·)) fun a b hab =>
    List.eq_of_perm_of_sorted
      (((List.perm_insertionSort _ a).trans hab).trans
        (List.perm_insertionSort _ b).symm)
      (List.sorted_insertionSort _ a) (List.sorted_insertionSort _ b)

/-- Iterating a Python set of integers, modelled in ascending order (the spec asks
for "a stable, deterministic order (ascending index order)"). -/
def setList (s : Finset Int) : List Int := sortedOf s.val

/-- The range test `candidate < 0 or candidate >= num_cand`, where `num_cand = none`
models `float("inf")` (every integer is smaller). -/
def outOfRange (numCand : Option Int) (n : Int) : Bool :=
  decide (n < 0) || (match numCand with | none => false | some m => decide (m ≤ n))

/-- The per-candidate loop of `Voter.check_valid`: for each element of the set,
first the `isinstance(candidate, int)` check (`TypeError`), then the range check
(`ValueError`). -/
def checkCandidates (numCand : Option Int) : List PyObj → Except PyError Unit
  | [] => .ok ()
  | c :: rest =>
    match c with
    | .str _ => .error .InvalidCandidateType
    | .int n =>
      if outOfRange numCand n then .error .CandidateOutOfRange
      else checkCandidates numCand rest

/-- `Voter.__init__(approved, weight=1)`: sets `self.approved = set(approved)`,
`self.weight = weight`, then runs `self.check_valid(approved_raw=approved)`, i.e.
the duplicate-length check, the per-candidate type/range loop with
`num_cand = float("inf")`, and the `weight > 0` check, in that order. -/
def Voter.construct (raw : List PyObj) (weight : ℚ) : Except PyError Voter :=
  let s := raw.dedup
  if s.length < raw.length then .error .DuplicateApproval
  else
    match checkCandidates none s with
    | .error e => .error e
    | .ok () =>
      if ¬ weight > 0 then .error .InvalidWeight
      else .ok ⟨(extractInts s).toFinset, weight⟩

/-- `Voter.check_valid(num_cand)` invoked on an already constructed voter (all
elements are integers): the range check over every approved candidate, then the
weight check. -/
def Voter.check_valid (v : Voter) (numCand : Int) : Except PyError Unit :=
  if ∃ n ∈ v.approved, n < 0 ∨ numCand ≤ n then .error .CandidateOutOfRange
  else if ¬ v.weight > 0 then .error .InvalidWeight
  else .ok ()

/-- `Voter(voter.approved, weight=voter.weight)`: re-running the constructor on an
existing voter's approval set (fed to `set(...)` again, hence duplicate-free). -/
def Voter.fromVoter (v : Voter) : Except PyError Voter :=
  Voter.construct ((setList v.approved).map PyObj.int) v.weight

/-- The argument of `Profile.add_voter` / `__setitem__`: either a `Voter` object or a
raw iterable of candidates (`isinstance(voter, Voter)` dispatch in `_unique_voter`). -/
inductive VoterInput where
  | voter : Voter → VoterInput
  | raw : List PyObj → VoterInput
deriving DecidableEq

/-- State of a `Profile` object: `self.candidates`, `self.cand_names`,
`self._voters`, `self._approved_candidates`. -/
structure Profile where
  candidates : List Nat
  cand_names : List String
  voters : List Voter
  approvedCache : Option (Finset Int)
deriving DecidableEq

/-- `Profile.num_cand`, i.e. `len(self.candidates)`. -/
def Profile.numCand (p : Profile) : Nat := p.candidates.length

/-- `Profile.__init__(num_cand, cand_names=None)`.  Candidate names are modelled as
strings (the `str(...)` coercion of supplied names is the identity on strings).
Note that the code guards the supplied names with `if cand_names:`, so a falsy
(empty) sequence is treated like `None`. -/
def Profile.init (num_cand : Int) (cand_names : Option (List String)) :
    Except PyError Profile :=
  if num_cand ≤ 0 then .error .InvalidArgument
  else
    let n := num_cand.toNat
    let defaults := (List.range n).map (fun i => toString i)
    match cand_names with
    | none => .ok ⟨List.range n, defaults, [], none⟩
    | some names =>
      if names.isEmpty then .ok ⟨List.range n, defaults, [], none⟩
      else if names.length < n then .error .InvalidArgument
      else .ok ⟨List.range n, names.take n, [], none⟩

/-- `Profile._unique_voter(voter)`: construct a fresh `Voter` (possibly raising),
then set `self._approved_candidates = None`, then `_voter.check_valid(self.num_cand)`
(possibly raising, with the cache already cleared). -/
def Profile.uniqueVoter (p : Profile) (input : VoterInput) :
    Profile × Except PyError Voter :=
  let res := match input with
    | .voter v => Voter.fromVoter v
    | .raw l => Voter.construct l 1
  match res with
  | .error e => (p, .error e)
  | .ok v =>
    let p' := { p with approvedCache := none }
    match v.check_valid (p'.numCand : Int) with
    | .error e => (p', .error e)
    | .ok () => (p', .ok v)

/-- `Profile.add_voter(voter)`: `self._voters.append(self._unique_voter(voter))`. -/
def Profile.add_voter (p : Profile) (input : VoterInput) :
    Profile × Except PyError Unit :=
  match p.uniqueVoter input with
  | (p', .error e) => (p', .error e)
  | (p', .ok v) => ({ p' with voters := p'.voters ++ [v] }, .ok ())

/-- `Profile.add_voters(voters)`: `for voter in voters: self.add_voter(voter)`;
a raised exception aborts the remaining iterations. -/
def Profile.add_voters (p : Profile) : List VoterInput → Profile × Except PyError Unit
  | [] => (p, .ok ())
  | x :: xs =>
    match p.add_voter x with
    | (p', .ok ()) => p'.add_voters xs
    | (p', .error e) => (p', .error e)

/-- `Profile.__setitem__(i, voter)`: the right-hand side `self._unique_voter(voter)`
is evaluated first (possibly raising), then `self._voters[i] = ...` assigns
(raising `IndexError` for an out-of-range index, leaving the list unchanged). -/
def Profile.set_item (p : Profile) (i : Nat) (input : VoterInput) :
    Profile × Except PyError Unit :=
  match p.uniqueVoter input with
  | (p', .error e) => (p', .error e)
  | (p', .ok v) =>
    if i < p'.voters.length then ({ p' with voters := p'.voters.set i v }, .ok ())
    else (p', .error .IndexOutOfRange)

/-- `Profile.totalweight()`. -/
def Profile.totalweight (p : Profile) : ℚ := (p.voters.map Voter.weight).sum

/-- `Profile.has_unit_weights()`. -/
def Profile.has_unit_weights (p : Profile) : Bool :=
  p.voters.all fun v => decide (v.weight = 1)

/-- `Profile.approved_candidates` (property): the code tests
`self._approved_candidates is None`; in that branch it recomputes the union of all
voters' approval sets into a **local** variable and returns it; in the other branch
the local is unassigned and the `return` would raise `NameError`.  The cache field
is never written back, so only the first branch is ever reachable. -/
def Profile.approved_candidates (p : Profile) : Except PyError (Finset Int) :=
  match p.approvedCache with
  | none => .ok (p.voters.foldl (fun acc v => acc ∪ v.approved) ∅)
  | some _ => .error .NameError

/-- `Profile.is_party_list()`:
`all(len(v1.approved & v2.approved) in (0, len(v1.approved)) for v1 ... for v2 ...)`. -/
def Profile.is_party_list (p : Profile) : Bool :=
  p.voters.all fun v1 => p.voters.all fun v2 =>
    decide ((v1.approved ∩ v2.approved).card = 0 ∨
      (v1.approved ∩ v2.approved).card = v1.approved.card)

/-- Python's `s[:-2]` on the ASCII output strings: drop the last two characters. -/
def strip2 (s : String) : String := ⟨s.data.dropLast.dropLast⟩


/-- Modelled from the spec: `str_set_of_candidates` lives in `abcvoting/misc.py`,
which is not among the available sources.  Per the spec's textual interface, a set
of candidate indices is rendered via the profile's `cand_names`, in ascending index
order, wrapped in set-display syntax, e.g. `\x7ba, c\x7d`. -/
def str_set_of_candidates (approved : List Int) (cand_names : List String) : String :=
  "\x7b" ++ String.intercalate ", " (approved.map fun c => cand_names.getD c.toNat "") ++
    "\x7d"

/-- `tuple(voter.approved)`: the grouping key used by `str_compact`, i.e. the
voter's approval set as a tuple in (modelled) iteration order. -/
def Voter.key (v : Voter) : List Int := setList v.approved

/-- `Profile.__str__()`: a header line, one line per voter ending in `,\n`
(weighted voter lines end in ` ,\n`), then `output[:-2]`. -/
def Profile.pyStr (p : Profile) : String :=
  let out :=
    if p.has_unit_weights then
      p.voters.foldl
        (fun acc v =>
          acc ++ " " ++ str_set_of_candidates (setList v.approved) p.cand_names ++ ",\n")
        ("profile with " ++ toString p.voters.length ++ " votes and " ++
          toString p.numCand ++ " candidates:\n")
    else
      p.voters.foldl
        (fun acc v =>
          acc ++ " " ++ toString v.weight ++ " * " ++
            str_set_of_candidates (setList v.approved) p.cand_names ++ " ,\n")
        ("weighted profile with " ++ toString p.voters.length ++ " votes and " ++
          toString p.numCand ++ " candidates:\n")
  strip2 out

/-- One step of filling the `OrderedDict` in `str_compact`: accumulate the weight
under an existing key, or append a new key at the end. -/
def compactInsert (acc : List (List Int × ℚ)) (k : List Int) (w : ℚ) :
    List (List Int × ℚ) :=
  if acc.any fun kv => decide (kv.1 = k) then
    acc.map fun kv => if kv.1 = k then (kv.1, kv.2 + w) else kv
  else acc ++ [(k, w)]

/-- The `OrderedDict` of `str_compact` after processing all voters: keys are
approval-set tuples in first-occurrence order, values the accumulated weights. -/
def compactGroups (voters : List Voter) : List (List Int × ℚ) :=
  voters.foldl (fun acc v => compactInsert acc v.key v.weight) []

/-- `Profile.str_compact()`: optional `"weighted "` prefix, header line, one line
per group, `output[:-2]`, optional total-weight line, final newline. -/
def Profile.str_compact (p : Profile) : String :=
  let head :=
    (if p.has_unit_weights then "" else "weighted ") ++
      "profile with " ++ toString p.voters.length ++ " votes and " ++
      toString p.numCand ++ " candidates:\n"
  let body :=
    (compactGroups p.voters).foldl
      (fun acc kv =>
        acc ++ " " ++ toString kv.2 ++ " x " ++
          str_set_of_candidates kv.1 p.cand_names ++ ",\n")
      head
  let out := strip2 body
  let out :=
    if p.has_unit_weights then out
    else out ++ "\ntotal weight: " ++ toString p.totalweight
  out ++ "\n"

/-!
Heap model for the ownership/aliasing discipline (claim about `set(approved)`
copying).  Python set objects live in a store; an address is an index into the
store.  `set(approved)` allocates a fresh object holding a copy of the contents;
`Voter.__init__` therefore never aliases the caller's set, and `_unique_voter`
builds a fresh `Voter` (hence a fresh set object) on every insertion path.
-/

/-- The store of Python set objects; an address is an index into `sets`. -/
structure Heap where
  sets : List (Finset Int)
deriving DecidableEq

/-- Allocate a fresh set object with the given contents; returns its address. -/
def Heap.alloc (h : Heap) (s : Finset Int) : Heap × Nat :=
  (⟨h.sets ++ [s]⟩, h.sets.length)

/-- Read the contents of the set object at an address. -/
def Heap.read (h : Heap) (a : Nat) : Finset Int := h.sets.getD a ∅

/-- In-place mutation of the set object at an address (what a caller does to a set
it owns, e.g. `x.add(5)`). -/
def Heap.write (h : Heap) (a : Nat) (s : Finset Int) : Heap := ⟨h.sets.set a s⟩

/-- An address is live in the heap. -/
def Heap.valid (h : Heap) (a : Nat) : Prop := a < h.sets.length

/-- A voter as stored on the heap: a reference to its approval-set object plus a
weight. -/
structure VoterRef where
  approvedRef : Nat
  weight : ℚ
deriving DecidableEq

/-- The successful path of `Profile.add_voter(x)` in the heap model: `set(x)`
inside `Voter.__init__` allocates a fresh set object initialised with a copy of
the contents of the caller's object at `callerRef`, and the fresh voter is
appended to the stored list. -/
def addVoterH (h : Heap) (stored : List VoterRef) (callerRef : Nat) (w : ℚ) :
    Heap × List VoterRef :=
  let (h', a) := h.alloc (h.read callerRef)
  (h', stored ++ [⟨a, w⟩])

/-! ### Lemmas: the set-iteration model -/

theorem sortedOf_coe (l : List Int) :
    sortedOf (l : Multiset Int) = List.insertionSort (· ≤ ·) l := rfl

theorem sortedOf_perm (m : Multiset Int) : (sortedOf m : Multiset Int) = m := by
  induction m using Quotient.inductionOn with
  | h l => exact Quotient.sound (List.perm_insertionSort _ l)

theorem mem_setList {s : Finset Int} {n : Int} : n ∈ setList s ↔ n ∈ s := by
  rw [← Multiset.mem_coe, setList, sortedOf_perm]
  exact Iff.rfl

theorem nodup_setList (s : Finset Int) : (setList s).Nodup := by
  have h : (setList s : Multiset Int).Nodup := by
    rw [setList, sortedOf_perm]; exact s.nodup
  simpa using h

theorem toFinset_setList (s : Finset Int) : (setList s).toFinset = s := by
  ext n
  simp [List.mem_toFinset, mem_setList]

theorem length_setList (s : Finset Int) : (setList s).length = s.card := by
  have h : Multiset.card (setList s : Multiset Int) = Multiset.card s.val := by
    rw [setList, sortedOf_perm]
  rw [Finset.card, ← h]
  exact (Multiset.coe_card _).symm

/-! ### Lemmas: `Voter` construction -/

theorem extractInts_map_int (xs : List Int) : extractInts (xs.map PyObj.int) = xs := by
  induction xs with
  | nil => rfl
  | cons x xs ih =>
    have h : extractInts ((x :: xs).map PyObj.int) = x :: extractInts (xs.map PyObj.int) := rfl
    rw [h, ih]

theorem checkCandidates_map_int_ok (nc : Option Int) (xs : List Int)
    (h : ∀ n ∈ xs, outOfRange nc n = false) :
    checkCandidates nc (xs.map PyObj.int) = .ok () := by
  induction xs with
  | nil => rfl
  | cons x xs ih =>
    have hx := h x (by simp)
    simp only [List.map_cons, checkCandidates, hx]
    exact ih fun n hn => h n (by simp [hn])

theorem checkCandidates_map_int_bad (nc : Option Int) (xs : List Int)
    (h : ∃ n ∈ xs, outOfRange nc n = true) :
    checkCandidates nc (xs.map PyObj.int) = .error .CandidateOutOfRange := by
  induction xs with
  | nil => simp at h
  | cons x xs ih =>
    by_cases hx : outOfRange nc x = true
    · simp [checkCandidates, hx]
    · have hx' : outOfRange nc x = false := by
        cases hev : outOfRange nc x with
        | false => rfl
        | true => exact absurd hev hx
      have hstep : checkCandidates nc ((x :: xs).map PyObj.int) =
          checkCandidates nc (xs.map PyObj.int) := by
        simp [checkCandidates, hx']
      rw [hstep]
      apply ih
      rcases h with ⟨n, hn, hout⟩
      rcases List.mem_cons.mp hn with rfl | hmem
      · exact absurd hout hx
      · exact ⟨n, hmem, hout⟩

theorem checkCandidates_not_dup (nc : Option Int) (l : List PyObj) :
    checkCandidates nc l ≠ .error .DuplicateApproval := by
  induction l with
  | nil => simp [checkCandidates]
  | cons c rest ih =>
    cases c with
    | str s => simp [checkCandidates]
    | int n =>
      by_cases hn : outOfRange nc n = true
      · simp [checkCandidates, hn]
      · simp only [checkCandidates, if_neg hn]
        exact ih

theorem checkCandidates_not_weight (nc : Option Int) (l : List PyObj) :
    checkCandidates nc l ≠ .error .InvalidWeight := by
  induction l with
  | nil => simp [checkCandidates]
  | cons c rest ih =>
    cases c with
    | str s => simp [checkCandidates]
    | int n =>
      by_cases hn : outOfRange nc n = true
      · simp [checkCandidates, hn]
      · simp only [checkCandidates, if_neg hn]
        exact ih

/-- Success characterisation of `Voter.fromVoter`: re-running the constructor on a
voter whose candidates are non-negative and whose weight is positive returns an
equal voter. -/
theorem fromVoter_ok {v : Voter} (hc : ∀ n ∈ v.approved, 0 ≤ n)
    (hw : 0 < v.weight) : Voter.fromVoter v = .ok ⟨v.approved, v.weight⟩ := by
  have hnodup : ((setList v.approved).map PyObj.int).Nodup :=
    (nodup_setList v.approved).map fun a b h => by injection h
  have hchk : checkCandidates none ((setList v.approved).map PyObj.int) = .ok () := by
    apply checkCandidates_map_int_ok
    intro n hn
    have : 0 ≤ n := hc n (mem_setList.mp hn)
    simp [outOfRange, this, Int.not_lt.mpr this]
  simp only [Voter.fromVoter, Voter.construct, hnodup.dedup, lt_self_iff_false, if_false,
    hchk, extractInts_map_int, toFinset_setList]
  rw [if_neg (not_not_intro hw)]

theorem fromVoter_neg {v : Voter} (hc : ∃ n ∈ v.approved, n < 0) :
    Voter.fromVoter v = .error .CandidateOutOfRange := by
  have hnodup : ((setList v.approved).map PyObj.int).Nodup :=
    (nodup_setList v.approved).map fun a b h => by injection h
  have hchk : checkCandidates none ((setList v.approved).map PyObj.int) =
      .error .CandidateOutOfRange := by
    apply checkCandidates_map_int_bad
    rcases hc with ⟨n, hn, hneg⟩
    exact ⟨n, mem_setList.mpr hn, by simp [outOfRange, hneg]⟩
  simp only [Voter.fromVoter, Voter.construct, hnodup.dedup, lt_self_iff_false, if_false,
    hchk]

theorem fromVoter_bad_weight {v : Voter} (hc : ∀ n ∈ v.approved, 0 ≤ n)
    (hw : ¬ 0 < v.weight) : Voter.fromVoter v = .error .InvalidWeight := by
  have hnodup : ((setList v.approved).map PyObj.int).Nodup :=
    (nodup_setList v.approved).map fun a b h => by injection h
  have hchk : checkCandidates none ((setList v.approved).map PyObj.int) = .ok () := by
    apply checkCandidates_map_int_ok
    intro n hn
    have : 0 ≤ n := hc n (mem_setList.mp hn)
    simp [outOfRange, this, Int.not_lt.mpr this]
  simp only [Voter.fromVoter, Voter.construct, hnodup.dedup, lt_self_iff_false, if_false,
    hchk, extractInts_map_int, toFinset_setList]
  rw [if_pos hw]

/-! ### Lemmas: `Voter.check_valid` -/

/-- Validity of a stored voter against a candidate count. -/
def Voter.valid (v : Voter) (numCand : Nat) : Prop :=
  (∀ n ∈ v.approved, 0 ≤ n ∧ n < (numCand : Int)) ∧ 0 < v.weight

theorem check_valid_ok_iff {v : Voter} {nc : Nat} :
    v.check_valid (nc : Int) = .ok () ↔ v.valid nc := by
  rw [Voter.check_valid, Voter.valid]
  constructor
  · intro h
    by_cases hr : ∃ n ∈ v.approved, n < 0 ∨ (nc : Int) ≤ n
    · simp [hr] at h
    · rw [if_neg hr] at h
      by_cases hw : ¬ v.weight > 0
      · simp [hw] at h
      · push_neg at hr
        exact ⟨fun n hn => hr n hn, not_not.mp hw⟩
  · rintro ⟨hc, hw⟩
    rw [if_neg, if_neg (not_not_intro hw)]
    push_neg
    intro n hn
    exact hc n hn

theorem check_valid_range {v : Voter} {nc : Int}
    (h : ∃ n ∈ v.approved, n < 0 ∨ nc ≤ n) :
    v.check_valid nc = .error .CandidateOutOfRange := by
  rw [Voter.check_valid, if_pos h]

/-! ### Lemmas: `Profile` operations -/

/-- Unfolded form of `_unique_voter` (with `p'.num_cand` rewritten to `p.num_cand`,
which holds definitionally since only the cache field changes). -/
theorem uniqueVoter_eq (p : Profile) (x : VoterInput) :
    p.uniqueVoter x =
      match (match x with
             | .voter v => Voter.fromVoter v
             | .raw l => Voter.construct l 1) with
      | .error e => (p, .error e)
      | .ok v =>
        match v.check_valid (p.numCand : Int) with
        | .error e => ({ p with approvedCache := none }, .error e)
        | .ok () => ({ p with approvedCache := none }, .ok v) := rfl

theorem uniqueVoter_preserves (p : Profile) (x : VoterInput) :
    (p.uniqueVoter x).1.candidates = p.candidates ∧
    (p.uniqueVoter x).1.cand_names = p.cand_names ∧
    (p.uniqueVoter x).1.voters = p.voters := by
  rw [uniqueVoter_eq]
  split
  · exact ⟨rfl, rfl, rfl⟩
  · split
    · exact ⟨rfl, rfl, rfl⟩
    · exact ⟨rfl, rfl, rfl⟩

theorem uniqueVoter_cache (p : Profile) (x : VoterInput) (h : p.approvedCache = none) :
    (p.uniqueVoter x).1.approvedCache = none := by
  rw [uniqueVoter_eq]
  split
  · exact h
  · split
    · rfl
    · rfl

theorem uniqueVoter_ok (p : Profile) (x : VoterInput) (v : Voter)
    (h : (p.uniqueVoter x).2 = .ok v) :
    (p.uniqueVoter x).1 = { p with approvedCache := none } ∧ v.valid p.numCand := by
  rw [uniqueVoter_eq] at h ⊢
  split at h
  · simp at h
  · rename_i w hw
    generalize hchk : w.check_valid (p.numCand : Int) = res at h ⊢
    match res with
    | .error e => simp at h
    | .ok () =>
      simp only [Except.ok.injEq] at h
      subst h
      exact ⟨rfl, check_valid_ok_iff.mp hchk⟩

/-- The voter appended by a successful `add_voter`. -/
theorem add_voter_ok (p : Profile) (x : VoterInput)
    (h : (p.add_voter x).2 = .ok ()) :
    ∃ v, (p.uniqueVoter x).2 = .ok v ∧
      (p.add_voter x).1 =
        { p with approvedCache := none, voters := p.voters ++ [v] } ∧
      v.valid p.numCand := by
  rw [Profile.add_voter] at h ⊢
  rcases huv : p.uniqueVoter x with ⟨p', res⟩
  cases res with
  | error e => rw [huv] at h; simp at h
  | ok v =>
    have h1 := uniqueVoter_ok p x v (by rw [huv])
    have h2 : p' = { p with approvedCache := none } := by
      have h3 := h1.1; rw [huv] at h3; exact h3
    refine ⟨v, rfl, ?_, h1.2⟩
    simp only [huv, h2]

/-- `add_voter` leaves the voter list untouched whenever it fails (atomicity). -/
theorem add_voter_error (p : Profile) (x : VoterInput) (e : PyError)
    (h : (p.add_voter x).2 = .error e) :
    (p.add_voter x).1.voters = p.voters := by
  rw [Profile.add_voter] at h ⊢
  rcases huv : p.uniqueVoter x with ⟨p', res⟩
  cases res with
  | error e' =>
    have hv := (uniqueVoter_preserves p x).2.2
    rw [huv] at hv
    simp only [huv]
    exact hv
  | ok v => rw [huv] at h; simp at h

theorem add_voter_fst_candidates (p : Profile) (x : VoterInput) :
    (p.add_voter x).1.candidates = p.candidates := by
  rw [Profile.add_voter]
  rcases huv : p.uniqueVoter x with ⟨p', res⟩
  have hv := (uniqueVoter_preserves p x).1
  rw [huv] at hv
  cases res with
  | error e => simp only [huv]; exact hv
  | ok v => simp only [huv]; exact hv

theorem add_voter_fst_names (p : Profile) (x : VoterInput) :
    (p.add_voter x).1.cand_names = p.cand_names := by
  rw [Profile.add_voter]
  rcases huv : p.uniqueVoter x with ⟨p', res⟩
  have hv := (uniqueVoter_preserves p x).2.1
  rw [huv] at hv
  cases res with
  | error e => simp only [huv]; exact hv
  | ok v => simp only [huv]; exact hv

theorem add_voter_fst_cache (p : Profile) (x : VoterInput)
    (h : p.approvedCache = none) : (p.add_voter x).1.approvedCache = none := by
  rw [Profile.add_voter]
  rcases huv : p.uniqueVoter x with ⟨p', res⟩
  have hv := uniqueVoter_cache p x h
  rw [huv] at hv
  cases res with
  | error e => simp only [huv]; exact hv
  | ok v => simp only [huv]; exact hv

theorem add_voter_fst_voters (p : Profile) (x : VoterInput) :
    (p.add_voter x).1.voters = p.voters ∨
      ∃ v, (p.add_voter x).1.voters = p.voters ++ [v] ∧ v.valid p.numCand := by
  cases hres : (p.add_voter x).2 with
  | error e => exact Or.inl (add_voter_error p x e hres)
  | ok u =>
    cases u
    rcases add_voter_ok p x hres with ⟨v, _, hfst, hval⟩
    exact Or.inr ⟨v, by rw [hfst], hval⟩

/-- The class invariant of `Profile`: the cache field is (always) `None` and every
stored voter is valid for the profile's candidate count. -/
def Profile.inv (p : Profile) : Prop :=
  p.approvedCache = none ∧ ∀ v ∈ p.voters, v.valid p.numCand

theorem init_ok {n : Int} {names : Option (List String)} {p : Profile}
    (h : Profile.init n names = .ok p) :
    p.voters = [] ∧ p.approvedCache = none ∧ p.candidates = List.range n.toNat := by
  simp only [Profile.init] at h
  split at h
  · simp at h
  · split at h
    · simp only [Except.ok.injEq] at h
      subst h
      exact ⟨rfl, rfl, rfl⟩
    · split at h
      · simp only [Except.ok.injEq] at h
        subst h
        exact ⟨rfl, rfl, rfl⟩
      · split at h
        · simp at h
        · simp only [Except.ok.injEq] at h
          subst h
          exact ⟨rfl, rfl, rfl⟩

theorem inv_init {n : Int} {names : Option (List String)} {p : Profile}
    (h : Profile.init n names = .ok p) : p.inv := by
  obtain ⟨hv, hc, _⟩ := init_ok h
  refine ⟨hc, ?_⟩
  rw [hv]
  intro v hv'
  simp at hv'

theorem add_voter_fst_numCand (p : Profile) (x : VoterInput) :
    (p.add_voter x).1.numCand = p.numCand := by
  rw [Profile.numCand, Profile.numCand, add_voter_fst_candidates]

theorem inv_add_voter (p : Profile) (x : VoterInput) (h : p.inv) :
    (p.add_voter x).1.inv := by
  obtain ⟨hc, hval⟩ := h
  refine ⟨add_voter_fst_cache p x hc, ?_⟩
  rw [add_voter_fst_numCand]
  rcases add_voter_fst_voters p x with hsame | ⟨v, hvs, hv⟩
  · rw [hsame]
    exact hval
  · rw [hvs]
    intro w hw
    rcases List.mem_append.mp hw with h1 | h2
    · exact hval w h1
    · rw [List.mem_singleton.mp h2]
      exact hv

theorem inv_add_voters (xs : List VoterInput) :
    ∀ p : Profile, p.inv → (p.add_voters xs).1.inv := by
  induction xs with
  | nil => intro p h; exact h
  | cons x xs ih =>
    intro p h
    rw [Profile.add_voters]
    rcases hav : p.add_voter x with ⟨p', res⟩
    have hp' : p'.inv := by
      have hi := inv_add_voter p x h
      rw [hav] at hi
      exact hi
    cases res with
    | ok u => cases u; exact ih p' hp'
    | error e => exact hp'

theorem set_item_inv (p : Profile) (i : Nat) (x : VoterInput) (h : p.inv) :
    (p.set_item i x).1.inv := by
  obtain ⟨hc, hval⟩ := h
  rw [Profile.set_item]
  rcases huv : p.uniqueVoter x with ⟨p', res⟩
  have hpres := uniqueVoter_preserves p x
  rw [huv] at hpres
  have hcache := uniqueVoter_cache p x hc
  rw [huv] at hcache
  have hnum : p'.numCand = p.numCand := by
    rw [Profile.numCand, Profile.numCand, hpres.1]
  have hvalid' : ∀ v ∈ p'.voters, v.valid p'.numCand := by
    rw [hpres.2.2, hnum]
    exact hval
  cases res with
  | error e => exact ⟨hcache, hvalid'⟩
  | ok v =>
    have hok := uniqueVoter_ok p x v (by rw [huv])
    change (if i < p'.voters.length then
        (({ p' with voters := p'.voters.set i v } : Profile),
          (Except.ok () : Except PyError Unit))
      else (p', Except.error PyError.IndexOutOfRange)).1.inv
    by_cases hi : i < p'.voters.length
    · rw [if_pos hi]
      refine ⟨hcache, ?_⟩
      intro w hw
      have hw' : w ∈ p'.voters.set i v ∨ w = v := Or.inl hw
      rcases List.mem_or_eq_of_mem_set hw with h1 | h2
      · exact hvalid' w h1
      · rw [h2]
        have hv := hok.2
        rw [← hnum] at hv
        exact hv
    · rw [if_neg hi]
      exact ⟨hcache, hvalid'⟩

/-- All profile states reachable through the public interface: a freshly
constructed profile followed by any sequence of `add_voter`, `add_voters` and
`__setitem__` calls, each observed whether it succeeded or raised. -/
inductive Reachable : Profile → Prop where
  | init : ∀ (n : Int) (names : Option (List String)) (p : Profile),
      Profile.init n names = .ok p → Reachable p
  | add_voter : ∀ (p : Profile) (x : VoterInput),
      Reachable p → Reachable (p.add_voter x).1
  | add_voters : ∀ (p : Profile) (xs : List VoterInput),
      Reachable p → Reachable (p.add_voters xs).1
  | set_item : ∀ (p : Profile) (i : Nat) (x : VoterInput),
      Reachable p → Reachable (p.set_item i x).1

theorem reachable_inv {p : Profile} (h : Reachable p) : p.inv := by
  induction h with
  | init n names p h => exact inv_init h
  | add_voter p x _ ih => exact inv_add_voter p x ih
  | add_voters p xs _ ih => exact inv_add_voters xs p ih
  | set_item p i x _ ih => exact set_item_inv p i x ih

/-! ### Lemmas: the union of approval sets -/

theorem foldl_union_mem (vs : List Voter) (s : Finset Int) (c : Int) :
    c ∈ vs.foldl (fun acc v => acc ∪ v.approved) s ↔
      c ∈ s ∨ ∃ v ∈ vs, c ∈ v.approved := by
  induction vs generalizing s with
  | nil => simp
  | cons v vs ih =>
    rw [List.foldl_cons, ih]
    constructor
    · rintro (hm | hm)
      · rcases Finset.mem_union.mp hm with h1 | h2
        · exact Or.inl h1
        · exact Or.inr ⟨v, by simp, h2⟩
      · rcases hm with ⟨w, hw, hc⟩
        exact Or.inr ⟨w, by simp [hw], hc⟩
    · rintro (hm | ⟨w, hw, hc⟩)
      · exact Or.inl (Finset.mem_union.mpr (Or.inl hm))
      · rcases List.mem_cons.mp hw with rfl | hmem
        · exact Or.inl (Finset.mem_union.mpr (Or.inr hc))
        · exact Or.inr ⟨w, hmem, hc⟩

/-! ### Lemmas: party-list profiles -/

theorem card_inter_cases {a b : Finset Int}
    (hab : (a ∩ b).card = 0 ∨ (a ∩ b).card = a.card)
    (hba : (b ∩ a).card = 0 ∨ (b ∩ a).card = b.card) :
    a ∩ b = ∅ ∨ a = b := by
  rcases hab with h | h
  · exact Or.inl (Finset.card_eq_zero.mp h)
  · have hsub : a ⊆ b := by
      have h1 : a ∩ b = a :=
        Finset.eq_of_subset_of_card_le Finset.inter_subset_left (le_of_eq h.symm)
      exact Finset.inter_eq_left.mp h1
    rcases hba with h' | h'
    · rw [Finset.inter_comm] at h'
      exact Or.inl (Finset.card_eq_zero.mp h')
    · have hsub' : b ⊆ a := by
        have h1 : b ∩ a = b :=
          Finset.eq_of_subset_of_card_le Finset.inter_subset_left (le_of_eq h'.symm)
        exact Finset.inter_eq_left.mp h1
      exact Or.inr (Finset.Subset.antisymm hsub hsub')

theorem card_inter_of_disjoint_or_eq {a b : Finset Int} (h : a ∩ b = ∅ ∨ a = b) :
    (a ∩ b).card = 0 ∨ (a ∩ b).card = a.card := by
  rcases h with h | h
  · exact Or.inl (by rw [h, Finset.card_empty])
  · subst h
    exact Or.inr (by rw [Finset.inter_self])

theorem is_party_list_iff (p : Profile) :
    p.is_party_list = true ↔
      ∀ v1 ∈ p.voters, ∀ v2 ∈ p.voters,
        (v1.approved ∩ v2.approved).card = 0 ∨
        (v1.approved ∩ v2.approved).card = v1.approved.card := by
  rw [Profile.is_party_list]
  simp [List.all_eq_true]

theorem is_party_list_iff_disjoint_or_eq (p : Profile) :
    p.is_party_list = true ↔
      ∀ v1 ∈ p.voters, ∀ v2 ∈ p.voters,
        v1.approved ∩ v2.approved = ∅ ∨ v1.approved = v2.approved := by
  rw [is_party_list_iff]
  constructor
  · intro h v1 h1 v2 h2
    exact card_inter_cases (h v1 h1 v2 h2) (h v2 h2 v1 h1)
  · intro h v1 h1 v2 h2
    exact card_inter_of_disjoint_or_eq (h v1 h1 v2 h2)

/-! ### Claim theorems -/

/-- **C1.**  Invariant: every `Voter` stored in a `Profile` reachable through the
public interface (construction, `add_voter`, `add_voters`, `__setitem__`, whether
succeeding or raising) satisfies `check_valid(num_cand)`: each approved candidate
is an integer in `[0, num_cand)` and the weight is strictly positive. -/
theorem C1_stored_voters_valid (p : Profile) (h : Reachable p) :
    ∀ v ∈ p.voters, v.check_valid (p.numCand : Int) = .ok () ∧
      (∀ n ∈ v.approved, 0 ≤ n ∧ n < (p.numCand : Int)) ∧ 0 < v.weight := by
  intro v hv
  have hval := (reachable_inv h).2 v hv
  exact ⟨check_valid_ok_iff.mpr hval, hval.1, hval.2⟩

/-- Witness for C1 at a concrete reachable profile (two candidates, one voter
approving candidate 0, inserted via `add_voter`). -/
theorem C1_witness :
    ((Profile.mk [0, 1] ["0", "1"] [] none).add_voter
        (.raw [.int 0])).1.voters = [⟨{0}, 1⟩] ∧
    Voter.check_valid ⟨{0}, 1⟩ 2 = .ok () ∧ (0 : ℚ) < 1 := by
  have hr : Reachable ((Profile.mk [0, 1] ["0", "1"] [] none).add_voter
      (.raw [.int 0])).1 :=
    Reachable.add_voter _ _ (Reachable.init 2 none _ rfl)
  have happ := C1_stored_voters_valid _ hr ⟨{0}, 1⟩ (by decide)
  exact ⟨by decide, happ.1, happ.2.2⟩

/-- **C2.**  `is_party_list()` is true iff every (possibly equal) ordered pair of
stored voters has `|v1.approved ∩ v2.approved| ∈ {0, |v1.approved|}`,
equivalently iff any two stored approval sets are disjoint or identical; it is
vacuously true for 0 or 1 voters; it is false for approval sets
`[{0,1}, {1,2}]` and true for `[{0,1}, {0,1}, {2}]`. -/
theorem C2_is_party_list :
    (∀ p : Profile,
      (p.is_party_list = true ↔
        ∀ v1 ∈ p.voters, ∀ v2 ∈ p.voters,
          (v1.approved ∩ v2.approved).card = 0 ∨
          (v1.approved ∩ v2.approved).card = v1.approved.card) ∧
      (p.is_party_list = true ↔
        ∀ v1 ∈ p.voters, ∀ v2 ∈ p.voters,
          v1.approved ∩ v2.approved = ∅ ∨ v1.approved = v2.approved) ∧
      (p.voters.length ≤ 1 → p.is_party_list = true)) ∧
    ((Profile.mk [0, 1, 2] ["0", "1", "2"] [] none).add_voters
        [.raw [.int 0, .int 1], .raw [.int 1, .int 2]]).1.is_party_list = false ∧
    ((Profile.mk [0, 1, 2] ["0", "1", "2"] [] none).add_voters
        [.raw [.int 0, .int 1], .raw [.int 0, .int 1], .raw [.int 2]]).1.is_party_list
      = true := by
  refine ⟨fun p => ⟨is_party_list_iff p, is_party_list_iff_disjoint_or_eq p, ?_⟩,
    by decide, by decide⟩
  intro hlen
  rw [is_party_list_iff_disjoint_or_eq]
  intro v1 h1 v2 h2
  right
  cases hvs : p.voters with
  | nil => rw [hvs] at h1; simp at h1
  | cons a l =>
    cases l with
    | nil =>
      rw [hvs] at h1 h2
      rw [List.mem_singleton.mp h1, List.mem_singleton.mp h2]
    | cons b l' => rw [hvs] at hlen; simp at hlen

/-- **C3.**  Reading `approved_candidates` on any reachable profile returns
exactly the union of the approval sets of the currently stored voters (never a
stale value, and never the dead `NameError` branch); it is empty right after
construction, and the concrete insertion chains of the spec give
`{0,1,2}` and then `{0,1,2,3}`. -/
theorem C3_approved_candidates :
    (∀ p : Profile, Reachable p →
      ∃ s, p.approved_candidates = .ok s ∧
        ∀ c, c ∈ s ↔ ∃ v ∈ p.voters, c ∈ v.approved) ∧
    (∀ (n : Int) (names : Option (List String)) (p : Profile),
      Profile.init n names = .ok p → p.approved_candidates = .ok ∅) ∧
    ((Profile.mk [0, 1, 2, 3] ["0", "1", "2", "3"] [] none).add_voters
        [.raw [.int 0], .raw [.int 1, .int 2]]).1.approved_candidates
      = .ok {0, 1, 2} ∧
    ((Profile.mk [0, 1, 2, 3] ["0", "1", "2", "3"] [] none).add_voters
        [.raw [.int 0], .raw [.int 1, .int 2], .raw [.int 3]]).1.approved_candidates
      = .ok {0, 1, 2, 3} := by
  refine ⟨fun p h => ?_, fun n names p h => ?_, by decide, by decide⟩
  · refine ⟨p.voters.foldl (fun acc v => acc ∪ v.approved) ∅, ?_, ?_⟩
    · rw [Profile.approved_candidates, (reachable_inv h).1]
    · intro c
      rw [foldl_union_mem]
      simp
  · obtain ⟨hv, hc, _⟩ := init_ok h
    rw [Profile.approved_candidates, hc, hv]
    rfl

/-- Witness for C3's reachability-based part at a concrete profile. -/
theorem C3_witness :
    ((Profile.mk [0, 1] ["0", "1"] [] none).add_voter
        (.raw [.int 1])).1.approved_candidates = .ok {1} := by
  have hr : Reachable ((Profile.mk [0, 1] ["0", "1"] [] none).add_voter
      (.raw [.int 1])).1 :=
    Reachable.add_voter _ _ (Reachable.init 2 none _ rfl)
  obtain ⟨s, hs, hmem⟩ := C3_approved_candidates.1 _ hr
  rw [hs]
  congr 1
  ext c
  rw [hmem c]
  constructor
  · rintro ⟨v, hv, hc⟩
    have : v = ⟨{1}, 1⟩ := by
      have hvs : ((Profile.mk [0, 1] ["0", "1"] [] none).add_voter
          (.raw [.int 1])).1.voters = [⟨{1}, 1⟩] := by decide
      rw [hvs] at hv
      exact List.mem_singleton.mp hv
    rw [this] at hc
    exact hc
  · intro hc
    refine ⟨⟨{1}, 1⟩, ?_, hc⟩
    decide

/-! ### Lemmas: `Voter.construct` error characterisation -/

theorem checkCandidates_ok_of_forall (nc : Option Int) (l : List PyObj)
    (h : ∀ o ∈ l, ∃ n : Int, o = .int n ∧ outOfRange nc n = false) :
    checkCandidates nc l = .ok () := by
  induction l with
  | nil => rfl
  | cons c rest ih =>
    rcases h c (by simp) with ⟨n, rfl, hn⟩
    simp only [checkCandidates, hn, Bool.false_eq_true, if_false]
    exact ih fun o ho => h o (by simp [ho])

theorem checkCandidates_str (nc : Option Int) (l : List PyObj)
    (hint : ∀ n : Int, PyObj.int n ∈ l → outOfRange nc n = false)
    (hbad : ∃ s : String, PyObj.str s ∈ l) :
    checkCandidates nc l = .error .InvalidCandidateType := by
  induction l with
  | nil => simp at hbad
  | cons c rest ih =>
    cases c with
    | str s => rfl
    | int n =>
      have hn := hint n (by simp)
      simp only [checkCandidates, hn, Bool.false_eq_true, if_false]
      apply ih
      · intro m hm
        exact hint m (by simp [hm])
      · rcases hbad with ⟨s, hs⟩
        rcases List.mem_cons.mp hs with h | h
        · exact absurd h (by simp)
        · exact ⟨s, h⟩

theorem construct_dup_iff (raw : List PyObj) (w : ℚ) :
    Voter.construct raw w = .error .DuplicateApproval ↔
      raw.toFinset.card < raw.length := by
  rw [List.card_toFinset, Voter.construct]
  by_cases hlen : raw.dedup.length < raw.length
  · simp [hlen]
  · rw [if_neg hlen]
    constructor
    · intro h
      cases hchk : checkCandidates none raw.dedup with
      | error e =>
        rw [hchk] at h
        simp only [Except.error.injEq] at h
        exact absurd (hchk.trans (by rw [h])) (checkCandidates_not_dup none raw.dedup)
      | ok u =>
        cases u
        rw [hchk] at h
        by_cases hw : ¬ w > 0
        · rw [if_pos hw] at h
          simp at h
        · rw [if_neg hw] at h
          simp at h
    · intro h
      exact absurd h hlen

theorem construct_type_error (raw : List PyObj) (w : ℚ) (hnodup : raw.Nodup)
    (hint : ∀ n : Int, PyObj.int n ∈ raw → 0 ≤ n)
    (hbad : ∃ s : String, PyObj.str s ∈ raw) :
    Voter.construct raw w = .error .InvalidCandidateType := by
  have hchk : checkCandidates none raw = .error .InvalidCandidateType := by
    apply checkCandidates_str
    · intro n hn
      have hge := hint n hn
      simp [outOfRange, Int.not_lt.mpr hge]
    · exact hbad
  rw [Voter.construct]
  simp only [hnodup.dedup, lt_self_iff_false, if_false, hchk]

theorem construct_weight_iff (raw : List PyObj) (w : ℚ) (hnodup : raw.Nodup)
    (hall : ∀ o ∈ raw, ∃ n : Int, o = .int n ∧ 0 ≤ n) :
    Voter.construct raw w = .error .InvalidWeight ↔ ¬ w > 0 := by
  have hchk : checkCandidates none raw = .ok () := by
    apply checkCandidates_ok_of_forall
    intro o ho
    rcases hall o ho with ⟨n, rfl, hn⟩
    exact ⟨n, rfl, by simp [outOfRange, Int.not_lt.mpr hn]⟩
  rw [Voter.construct]
  simp only [hnodup.dedup, lt_self_iff_false, if_false, hchk]
  by_cases hw : ¬ w > 0
  · simp only [if_pos hw]
    simp [hw]
  · simp only [if_neg hw]
    simp [hw]

theorem construct_singleton_nat (n : Nat) :
    Voter.construct [.int (n : Int)] 1 = .ok ⟨{(n : Int)}, 1⟩ := by
  have h0 : outOfRange none (n : Int) = false := by
    simp [outOfRange, Int.not_lt.mpr (Int.ofNat_nonneg n)]
  have hchk : checkCandidates none [PyObj.int (n : Int)] = .ok () := by
    simp [checkCandidates, h0]
  have hnodup : ([PyObj.int (n : Int)]).Nodup := List.nodup_singleton _
  rw [Voter.construct]
  simp only [hnodup.dedup, lt_self_iff_false, if_false, hchk]
  rw [if_neg (not_not_intro one_pos)]
  simp [extractInts]

/-- **C4.**  `Voter` construction fails with `DuplicateApproval` exactly when the
deduplicated set of the raw input is strictly smaller than the raw input's length;
fails with `InvalidCandidateType` when some element is not an integer (given a
duplicate-free input whose integer entries are non-negative, so that no earlier
check fires); fails with `InvalidWeight` exactly when `weight ≤ 0` (given a
duplicate-free all-integer non-negative input); an empty approval iterable is
valid; and no range check against a candidate universe is performed at bare
construction — arbitrarily large natural-number candidates are accepted. -/
theorem C4_voter_construct :
    (∀ (raw : List PyObj) (w : ℚ),
      Voter.construct raw w = .error .DuplicateApproval ↔
        raw.toFinset.card < raw.length) ∧
    (∀ (raw : List PyObj) (w : ℚ), raw.Nodup →
      (∀ n : Int, PyObj.int n ∈ raw → 0 ≤ n) →
      (∃ s : String, PyObj.str s ∈ raw) →
      Voter.construct raw w = .error .InvalidCandidateType) ∧
    (∀ (raw : List PyObj) (w : ℚ), raw.Nodup →
      (∀ o ∈ raw, ∃ n : Int, o = .int n ∧ 0 ≤ n) →
      (Voter.construct raw w = .error .InvalidWeight ↔ ¬ w > 0)) ∧
    (∀ w : ℚ, 0 < w → Voter.construct [] w = .ok ⟨∅, w⟩) ∧
    (∀ n : Nat, Voter.construct [.int (n : Int)] 1 = .ok ⟨{(n : Int)}, 1⟩) := by
  refine ⟨construct_dup_iff, construct_type_error, construct_weight_iff,
    fun w hw => ?_, construct_singleton_nat⟩
  rw [Voter.construct]
  simp only [List.dedup_nil, List.length_nil, lt_self_iff_false, if_false]
  rw [if_neg (not_not_intro hw)]
  rfl

/-- Witness for C4 at concrete inputs: a duplicated input, a non-integer input, a
non-positive weight, the empty ballot, and a huge candidate index. -/
theorem C4_witness :
    Voter.construct [.int 1, .int 2, .int 1] 1 = .error .DuplicateApproval ∧
    Voter.construct [.str "x"] 1 = .error .InvalidCandidateType ∧
    Voter.construct [] 0 = .error .InvalidWeight ∧
    Voter.construct [] 1 = .ok ⟨∅, 1⟩ ∧
    Voter.construct [.int ((1000000000000 : Nat) : Int)] 1 =
      .ok ⟨{((1000000000000 : Nat) : Int)}, 1⟩ := by
  refine ⟨(C4_voter_construct.1 _ 1).mpr (by decide),
    C4_voter_construct.2.1 _ 1 (by decide) (fun n hn => by simp at hn)
      ⟨"x", by simp⟩,
    (C4_voter_construct.2.2.1 [] 0 List.nodup_nil (by simp)).mpr (by norm_num),
    C4_voter_construct.2.2.2.1 1 one_pos,
    C4_voter_construct.2.2.2.2 1000000000000⟩

/-- **C5 counterexample.**  The empty list has fewer entries (0) than
`num_cand = 1`, yet `Profile(1, cand_names=[])` does **not** fail: the code's
`if cand_names:` treats a falsy (empty) sequence as absent and falls back to the
default names. -/
theorem C5_counterexample :
    List.length ([] : List String) < 1 ∧
    Profile.init 1 (some []) = .ok ⟨[0], ["0"], [], none⟩ :=
  ⟨by decide, rfl⟩

/-- **C5 (amended).**  Profile construction fails with `InvalidArgument` for every
`num_cand ≤ 0`; it fails with `InvalidArgument` whenever a **non-empty**
`cand_names` is supplied with fewer entries than `num_cand` (an empty supplied
sequence is falsy and treated as absent, yielding default names); otherwise it
succeeds with an empty voter sequence, `candidates = [0, num_cand)`, and names
defaulted to stringified indices or taken from the supplied sequence. -/
theorem C5_profile_init :
    (∀ (n : Int) (names : Option (List String)), n ≤ 0 →
      Profile.init n names = .error .InvalidArgument) ∧
    (∀ (n : Int) (names : List String), 0 < n → names ≠ [] →
      names.length < n.toNat →
      Profile.init n (some names) = .error .InvalidArgument) ∧
    (∀ n : Int, 0 < n →
      Profile.init n none =
        .ok ⟨List.range n.toNat, (List.range n.toNat).map (fun i => toString i),
          [], none⟩) ∧
    (∀ n : Int, 0 < n →
      Profile.init n (some []) =
        .ok ⟨List.range n.toNat, (List.range n.toNat).map (fun i => toString i),
          [], none⟩) ∧
    (∀ (n : Int) (names : List String), 0 < n → n.toNat ≤ names.length →
      Profile.init n (some names) =
        .ok ⟨List.range n.toNat, names.take n.toNat, [], none⟩) := by
  refine ⟨fun n names hn => ?_, fun n names hn hne hlt => ?_, fun n hn => ?_,
    fun n hn => ?_, fun n names hn hle => ?_⟩
  · rw [Profile.init, if_pos hn]
  · rw [Profile.init, if_neg (not_le.mpr hn)]
    simp only [List.isEmpty_iff, hne, if_false]
    rw [if_pos hlt]
  · rw [Profile.init, if_neg (not_le.mpr hn)]
  · rw [Profile.init, if_neg (not_le.mpr hn)]
    simp
  · have hne : names ≠ [] := by
      intro h
      rw [h] at hle
      simp at hle
      omega
    rw [Profile.init, if_neg (not_le.mpr hn)]
    simp only [List.isEmpty_iff, hne, if_false]
    rw [if_neg (not_lt.mpr hle)]

/-- Witness for C5 at concrete inputs. -/
theorem C5_witness :
    Profile.init 0 none = .error .InvalidArgument ∧
    Profile.init 2 (some ["a"]) = .error .InvalidArgument ∧
    Profile.init 2 none = .ok ⟨[0, 1], ["0", "1"], [], none⟩ ∧
    Profile.init 2 (some []) = .ok ⟨[0, 1], ["0", "1"], [], none⟩ ∧
    Profile.init 2 (some ["a", "b", "c"]) = .ok ⟨[0, 1], ["a", "b"], [], none⟩ := by
  refine ⟨C5_profile_init.1 0 none (by norm_num),
    C5_profile_init.2.1 2 ["a"] (by norm_num) (by simp) (by norm_num),
    ?_, ?_, ?_⟩
  · have h := C5_profile_init.2.2.1 2 (by norm_num)
    rw [h]
    rfl
  · have h := C5_profile_init.2.2.2.1 2 (by norm_num)
    rw [h]
    rfl
  · have h := C5_profile_init.2.2.2.2 2 ["a", "b", "c"] (by norm_num) (by norm_num)
    rw [h]
    rfl

/-! ### Lemmas: error paths through `add_voter` / `add_voters` -/

theorem uniqueVoter_construct_error (p : Profile) (x : VoterInput) (e : PyError)
    (h : (match x with
          | .voter v => Voter.fromVoter v
          | .raw l => Voter.construct l 1) = .error e) :
    p.uniqueVoter x = (p, .error e) := by
  rw [uniqueVoter_eq, h]

theorem uniqueVoter_check_error (p : Profile) (x : VoterInput) (v : Voter)
    (e : PyError)
    (h1 : (match x with
           | .voter w => Voter.fromVoter w
           | .raw l => Voter.construct l 1) = .ok v)
    (h2 : v.check_valid (p.numCand : Int) = .error e) :
    p.uniqueVoter x = ({ p with approvedCache := none }, .error e) := by
  rw [uniqueVoter_eq, h1]
  simp only [h2]

theorem add_voter_of_uniqueVoter_error (p : Profile) (x : VoterInput)
    (q : Profile) (e : PyError) (h : p.uniqueVoter x = (q, .error e)) :
    p.add_voter x = (q, .error e) := by
  rw [Profile.add_voter, h]

theorem add_voters_cons_error (p : Profile) (x : VoterInput)
    (ys : List VoterInput) (q : Profile) (e : PyError)
    (h : p.add_voter x = (q, .error e)) :
    p.add_voters (x :: ys) = (q, .error e) := by
  rw [Profile.add_voters, h]

theorem add_voters_append_ok (xs : List VoterInput) :
    ∀ (p p' : Profile) (rest : List VoterInput),
      p.add_voters xs = (p', .ok ()) →
      p.add_voters (xs ++ rest) = p'.add_voters rest := by
  induction xs with
  | nil =>
    intro p p' rest h
    rw [Profile.add_voters] at h
    simp only [Prod.mk.injEq] at h
    rw [List.nil_append, h.1]
  | cons x xs ih =>
    intro p p' rest h
    rcases hav : p.add_voter x with ⟨q, res⟩
    rw [Profile.add_voters, hav] at h
    rw [List.cons_append, Profile.add_voters, hav]
    cases res with
    | error e => simp at h
    | ok u =>
      cases u
      exact ih q p' rest h

/-- **C6.**  `add_voter` is atomic: on any validation failure the voter sequence is
unchanged; and feeding it a `Voter` with positive weight whose approval set
contains an index `< 0` or `>= num_cand` fails with `CandidateOutOfRange` (likewise
for a duplicate-free raw iterable of in-range-or-not integers). -/
theorem C6_add_voter_out_of_range :
    (∀ (p : Profile) (x : VoterInput) (e : PyError),
      (p.add_voter x).2 = .error e → (p.add_voter x).1.voters = p.voters) ∧
    (∀ (p : Profile) (v : Voter), 0 < v.weight →
      (∃ n ∈ v.approved, n < 0 ∨ (p.numCand : Int) ≤ n) →
      (p.add_voter (.voter v)).2 = .error .CandidateOutOfRange ∧
      (p.add_voter (.voter v)).1.voters = p.voters) := by
  refine ⟨add_voter_error, fun p v hw hex => ?_⟩
  by_cases hneg : ∃ n ∈ v.approved, n < 0
  · have huv : p.uniqueVoter (.voter v) = (p, .error .CandidateOutOfRange) :=
      uniqueVoter_construct_error p (.voter v) _ (fromVoter_neg hneg)
    have hav := add_voter_of_uniqueVoter_error p (.voter v) p _ huv
    rw [hav]
    exact ⟨rfl, rfl⟩
  · push_neg at hneg
    have hok : Voter.fromVoter v = .ok ⟨v.approved, v.weight⟩ :=
      fromVoter_ok (fun n hn => hneg n hn) hw
    have hchk : Voter.check_valid ⟨v.approved, v.weight⟩ (p.numCand : Int) =
        .error .CandidateOutOfRange :=
      check_valid_range hex
    have huv := uniqueVoter_check_error p (.voter v) ⟨v.approved, v.weight⟩ _ hok hchk
    have hav := add_voter_of_uniqueVoter_error p (.voter v) _ _ huv
    rw [hav]
    exact ⟨rfl, rfl⟩

/-- Witness for C6: a 2-candidate profile rejects a voter approving candidate 5,
leaving the voter list empty. -/
theorem C6_witness :
    (0 : ℚ) < 1 ∧
    ((Profile.mk [0, 1] ["0", "1"] [] none).add_voter
        (.voter ⟨{5}, 1⟩)).2 = .error .CandidateOutOfRange ∧
    ((Profile.mk [0, 1] ["0", "1"] [] none).add_voter
        (.voter ⟨{5}, 1⟩)).1.voters = [] := by
  have h := C6_add_voter_out_of_range.2 (Profile.mk [0, 1] ["0", "1"] [] none)
    ⟨{5}, 1⟩ one_pos ⟨5, by decide, Or.inr (by decide)⟩
  exact ⟨one_pos, h.1, h.2⟩

/-- **C7.**  `add_voters` applies `add_voter` to each element in order and is not
atomic: if an element fails, the previously inserted voters remain, the failing
and all following elements are not inserted, and the error propagates. -/
theorem C7_add_voters_not_atomic (p p' : Profile) (xs ys : List VoterInput)
    (x : VoterInput) (e : PyError)
    (h1 : p.add_voters xs = (p', .ok ()))
    (h2 : (p'.add_voter x).2 = .error e) :
    p.add_voters (xs ++ x :: ys) = ((p'.add_voter x).1, .error e) ∧
    (p'.add_voter x).1.voters = p'.voters := by
  have hx : p'.add_voter x = ((p'.add_voter x).1, .error e) := by
    rcases hax : p'.add_voter x with ⟨q, res⟩
    rw [hax] at h2
    simp only at h2
    rw [h2]
  constructor
  · rw [add_voters_append_ok xs p p' (x :: ys) h1]
    exact add_voters_cons_error p' x ys _ e hx
  · exact add_voter_error p' x e h2

/-- Witness for C7: inserting `[{0}, {5}, {1}]` into a 2-candidate
profile keeps the first voter, rejects the second with `CandidateOutOfRange`, and
never inserts the third. -/
theorem C7_witness :
    (Profile.mk [0, 1] ["0", "1"] [] none).add_voters
        ([.raw [.int 0]] ++ .raw [.int 5] :: [.raw [.int 1]]) =
      (((Profile.mk [0, 1] ["0", "1"] [⟨{0}, 1⟩] none).add_voter
          (.raw [.int 5])).1, .error .CandidateOutOfRange) ∧
    ((Profile.mk [0, 1] ["0", "1"] [⟨{0}, 1⟩] none).add_voter
        (.raw [.int 5])).1.voters = [⟨{0}, 1⟩] := by
  have h := C7_add_voters_not_atomic (Profile.mk [0, 1] ["0", "1"] [] none)
    (Profile.mk [0, 1] ["0", "1"] [⟨{0}, 1⟩] none)
    [.raw [.int 0]] [.raw [.int 1]] (.raw [.int 5]) .CandidateOutOfRange
    (by decide) (by decide)
  exact h

/-! ### Lemmas: string plumbing for the textual interface -/

theorem string_ext {a b : String} (h : a.data = b.data) : a = b := by
  cases a
  cases b
  exact congrArg String.mk h

theorem data_append (a b : String) : (a ++ b).data = a.data ++ b.data := rfl

theorem strip2_data (s : String) : (strip2 s).data = s.data.dropLast.dropLast := rfl

theorem append_empty_str (s : String) : s ++ "" = s := by
  apply string_ext
  rw [data_append]
  simp

theorem str_assoc (a b c : String) : a ++ b ++ c = a ++ (b ++ c) := by
  apply string_ext
  simp [data_append]

theorem strip2_append_pair {t : String} (s : String) (c1 c2 : Char)
    (h : t.data = [c1, c2]) : strip2 (s ++ t) = s := by
  apply string_ext
  rw [strip2_data, data_append, h,
    show s.data ++ [c1, c2] = (s.data ++ [c1]) ++ [c2] by simp,
    List.dropLast_concat, List.dropLast_concat]

/-- Concatenation of a list of strings. -/
def concatAll : List String → String
  | [] => ""
  | s :: rest => s ++ concatAll rest

/-- The group lines of `str_compact`, separated (not terminated) by `,\n`:
one line per group, `"<summed-weight> x \x7bnames\x7d"`. -/
def sepBody (names : List String) : List (List Int × ℚ) → String
  | [] => ""
  | [kv] => " " ++ toString kv.2 ++ " x " ++ str_set_of_candidates kv.1 names
  | kv :: rest =>
    " " ++ toString kv.2 ++ " x " ++ str_set_of_candidates kv.1 names ++ ",\n" ++
      sepBody names rest

theorem body_foldl (names : List String) (gs : List (List Int × ℚ)) :
    ∀ h : String,
      gs.foldl (fun acc kv =>
          acc ++ " " ++ toString kv.2 ++ " x " ++
            str_set_of_candidates kv.1 names ++ ",\n") h =
        h ++ concatAll (gs.map fun kv =>
          " " ++ toString kv.2 ++ " x " ++ str_set_of_candidates kv.1 names ++ ",\n") := by
  induction gs with
  | nil => intro h; rw [List.foldl_nil, List.map_nil, concatAll, append_empty_str]
  | cons kv gs ih =>
    intro h
    rw [List.foldl_cons, List.map_cons, concatAll, ih]
    apply string_ext
    simp [data_append]

theorem strip2_body (names : List String) (gs : List (List Int × ℚ))
    (hne : gs ≠ []) (h : String) :
    strip2 (h ++ concatAll (gs.map fun kv =>
        " " ++ toString kv.2 ++ " x " ++ str_set_of_candidates kv.1 names ++ ",\n")) =
      h ++ sepBody names gs := by
  induction gs generalizing h with
  | nil => exact absurd rfl hne
  | cons kv gs ih =>
    cases gs with
    | nil =>
      rw [List.map_cons, List.map_nil, concatAll, concatAll, append_empty_str]
      rw [show h ++ (" " ++ toString kv.2 ++ " x " ++
          str_set_of_candidates kv.1 names ++ ",\n") =
        (h ++ (" " ++ toString kv.2 ++ " x " ++ str_set_of_candidates kv.1 names)) ++
          ",\n" from by apply string_ext; simp [data_append]]
      rw [strip2_append_pair _ ',' (Char.ofNat 10) rfl]
      apply string_ext
      simp [data_append, sepBody]
    | cons kv2 gs2 =>
      rw [List.map_cons, concatAll]
      rw [show h ++ (" " ++ toString kv.2 ++ " x " ++
          str_set_of_candidates kv.1 names ++ ",\n" ++
          concatAll (List.map (fun kv =>
            " " ++ toString kv.2 ++ " x " ++ str_set_of_candidates kv.1 names ++ ",\n")
            (kv2 :: gs2))) =
        (h ++ (" " ++ toString kv.2 ++ " x " ++ str_set_of_candidates kv.1 names ++ ",\n"))
          ++ concatAll (List.map (fun kv =>
            " " ++ toString kv.2 ++ " x " ++ str_set_of_candidates kv.1 names ++ ",\n")
            (kv2 :: gs2)) from by apply string_ext; simp [data_append]]
      rw [ih (by simp)]
      apply string_ext
      simp [data_append, sepBody]

/-! ### The grouping of `str_compact`, characterised -/

/-- Keys of a list in first-occurrence order, duplicates removed (the key order of
a Python `OrderedDict`/`dict` filled by iteration). -/
def firstOccur {α : Type} [DecidableEq α] : List α → List α
  | [] => []
  | a :: l => a :: (firstOccur l).filter (fun b => decide (b ≠ a))

/-- The total weight of the voters whose approval-set tuple equals `k`. -/
def weightSum (k : List Int) (vs : List Voter) : ℚ :=
  ((vs.filter fun v => decide (v.key = k)).map Voter.weight).sum

/-- The grouping described by the spec: voters grouped by value-equal approval
set, in first-occurrence order over the original voter sequence, with the
weights summed within each group. -/
def specGroups (vs : List Voter) : List (List Int × ℚ) :=
  (firstOccur (vs.map Voter.key)).map fun k => (k, weightSum k vs)

theorem mem_firstOccur {α : Type} [DecidableEq α] (l : List α) (x : α) :
    x ∈ firstOccur l ↔ x ∈ l := by
  induction l with
  | nil => simp [firstOccur]
  | cons a l ih =>
    simp only [firstOccur, List.mem_cons, List.mem_filter, ih, decide_eq_true_eq]
    by_cases hx : x = a
    · simp [hx]
    · simp [hx]

theorem firstOccur_concat {α : Type} [DecidableEq α] (l : List α) (k : α) :
    firstOccur (l ++ [k]) =
      if k ∈ l then firstOccur l else firstOccur l ++ [k] := by
  induction l with
  | nil => simp [firstOccur]
  | cons a l ih =>
    rw [List.cons_append, firstOccur, ih, firstOccur]
    by_cases hk : k ∈ l
    · rw [if_pos hk, if_pos (by simp [hk])]
    · rw [if_neg hk]
      by_cases ha : k = a
      · rw [if_pos (by simp [ha])]
        rw [List.filter_append]
        simp [ha]
      · rw [if_neg (by simp [ha, hk])]
        rw [List.filter_append]
        simp [ha]

theorem weightSum_concat (k : List Int) (vs : List Voter) (v : Voter) :
    weightSum k (vs ++ [v]) =
      weightSum k vs + (if v.key = k then v.weight else 0) := by
  rw [weightSum, List.filter_append, List.map_append, List.sum_append, weightSum]
  congr 1
  by_cases h : v.key = k
  · simp [h]
  · simp [h]

theorem weightSum_eq_zero {k : List Int} {vs : List Voter}
    (h : k ∉ vs.map Voter.key) : weightSum k vs = 0 := by
  rw [weightSum]
  have hf : vs.filter (fun v => decide (v.key = k)) = [] := by
    rw [List.filter_eq_nil_iff]
    intro v hv
    simp only [decide_eq_true_eq]
    intro he
    exact h (List.mem_map.mpr ⟨v, hv, he⟩)
  rw [hf]
  rfl

theorem compactGroups_concat (vs : List Voter) (v : Voter) :
    compactGroups (vs ++ [v]) =
      compactInsert (compactGroups vs) v.key v.weight := by
  rw [compactGroups, List.foldl_append, List.foldl_cons, List.foldl_nil, compactGroups]

/-- The `OrderedDict` loop of `str_compact` computes exactly the spec's grouping:
keys in first-occurrence order, values the per-group weight sums. -/
theorem compactGroups_eq_specGroups (vs : List Voter) :
    compactGroups vs = specGroups vs := by
  induction vs using List.reverseRecOn with
  | nil => rfl
  | append_singleton vs v ih =>
    rw [compactGroups_concat, ih, compactInsert]
    by_cases hmem : v.key ∈ vs.map Voter.key
    · rw [if_pos ?hguard]
      case hguard =>
        rw [List.any_eq_true]
        refine ⟨(v.key, weightSum v.key vs), ?_, by simp⟩
        rw [specGroups]
        exact List.mem_map.mpr ⟨v.key, (mem_firstOccur _ _).mpr hmem, rfl⟩
      rw [specGroups, specGroups, List.map_append, List.map_singleton,
        firstOccur_concat, if_pos hmem, List.map_map]
      apply List.map_congr_left
      intro k hk
      simp only [Function.comp]
      by_cases he : k = v.key
      · rw [if_pos he, weightSum_concat, if_pos he.symm]
      · rw [if_neg he, weightSum_concat, if_neg (fun h => he h.symm), add_zero]
    · rw [if_neg ?hguard]
      case hguard =>
        rw [List.any_eq_true]
        push_neg
        rintro ⟨k, w⟩ hkw
        rw [specGroups] at hkw
        rcases List.mem_map.mp hkw with ⟨k0, hk0, hpair⟩
        simp only [Prod.mk.injEq] at hpair
        intro he
        have he' : k = v.key := of_decide_eq_true he
        apply hmem
        rw [← he', ← hpair.1]
        exact (mem_firstOccur _ _).mp hk0
      rw [specGroups, specGroups, List.map_append, List.map_singleton,
        firstOccur_concat, if_neg hmem, List.map_append]
      congr 1
      · apply List.map_congr_left
        intro k hk
        have hne : v.key ≠ k := by
          intro he
          exact hmem (he ▸ (mem_firstOccur _ _).mp hk)
        rw [weightSum_concat, if_neg hne, add_zero]
      · simp only [List.map_cons, List.map_nil]
        rw [weightSum_concat, if_pos rfl, weightSum_eq_zero hmem, zero_add]

theorem specGroups_ne_nil {vs : List Voter} (h : vs ≠ []) : specGroups vs ≠ [] := by
  rw [specGroups]
  cases vs with
  | nil => exact absurd rfl h
  | cons v vs => simp [firstOccur]

theorem has_unit_weights_iff (p : Profile) :
    p.has_unit_weights = true ↔ ∀ v ∈ p.voters, v.weight = 1 := by
  rw [Profile.has_unit_weights]
  simp [List.all_eq_true]

/-- Structure of `str_compact` for a non-empty profile: optional `"weighted "`
prefix, header with voter and candidate counts, one line per spec group
(`sepBody`), optional total-weight line, final newline. -/
theorem str_compact_eq (p : Profile) (hne : p.voters ≠ []) :
    p.str_compact =
      (if p.has_unit_weights = true then "" else "weighted ") ++
      "profile with " ++ toString p.voters.length ++ " votes and " ++
      toString p.numCand ++ " candidates:\n" ++
      sepBody p.cand_names (specGroups p.voters) ++
      (if p.has_unit_weights = true then ""
       else "\ntotal weight: " ++ toString p.totalweight) ++
      "\n" := by
  simp only [Profile.str_compact]
  rw [compactGroups_eq_specGroups, body_foldl,
    strip2_body _ _ (specGroups_ne_nil hne)]
  by_cases hu : p.has_unit_weights = true
  · simp only [if_pos hu]
    apply string_ext
    simp [data_append]
  · simp only [if_neg hu]
    apply string_ext
    simp [data_append]

/-- **C8.**  `str_compact` groups voters by value-equal approval set preserving
first-occurrence order, summing weights per group (`compactGroups = specGroups`);
`has_unit_weights` holds iff all weights are 1; for a non-empty profile the output
is the header (prefixed `"weighted "` exactly when not all weights are 1), one
line `"<summed-weight> x \x7bnames\x7d"` per group, and a trailing total-weight
line exactly when not all weights are 1; unit-weight voters
`[\x7b0\x7d, \x7b0\x7d, \x7b1\x7d]` give two group lines (`2 x` then `1 x`)
and no total-weight line. -/
theorem C8_str_compact :
    (∀ vs : List Voter, compactGroups vs = specGroups vs) ∧
    (∀ p : Profile, p.has_unit_weights = true ↔ ∀ v ∈ p.voters, v.weight = 1) ∧
    (∀ p : Profile, p.voters ≠ [] →
      p.str_compact =
        (if p.has_unit_weights = true then "" else "weighted ") ++
        "profile with " ++ toString p.voters.length ++ " votes and " ++
        toString p.numCand ++ " candidates:\n" ++
        sepBody p.cand_names (specGroups p.voters) ++
        (if p.has_unit_weights = true then ""
         else "\ntotal weight: " ++ toString p.totalweight) ++
        "\n") ∧
    ((Profile.mk [0, 1] ["0", "1"] [] none).add_voters
        [.raw [.int 0], .raw [.int 0], .raw [.int 1]]).1.str_compact =
      "profile with 3 votes and 2 candidates:\n 2 x \x7b0\x7d,\n 1 x \x7b1\x7d\n" := by
  refine ⟨compactGroups_eq_specGroups, has_unit_weights_iff, str_compact_eq, ?_⟩
  have hg : compactGroups ((Profile.mk [0, 1] ["0", "1"] [] none).add_voters
      [.raw [.int 0], .raw [.int 0], .raw [.int 1]]).1.voters
      = [([0], (2 : ℚ)), ([1], (1 : ℚ))] := by
    rw [show (2 : ℚ) = 1 + 1 by norm_num]
    rfl
  simp only [Profile.str_compact, hg]
  rfl

/-- Witness for C8's quantified parts at a concrete profile. -/
theorem C8_witness :
    (Profile.mk [0, 1] ["0", "1"] [⟨{0}, 1⟩, ⟨{0}, 1⟩, ⟨{1}, 1⟩] none).str_compact =
      (if (Profile.mk [0, 1] ["0", "1"]
            [⟨{0}, 1⟩, ⟨{0}, 1⟩, ⟨{1}, 1⟩] none).has_unit_weights = true
       then "" else "weighted ") ++
      "profile with 3 votes and 2 candidates:\n" ++
      sepBody ["0", "1"]
        (specGroups [⟨{0}, 1⟩, ⟨{0}, 1⟩, ⟨{1}, 1⟩]) ++
      (if (Profile.mk [0, 1] ["0", "1"]
            [⟨{0}, 1⟩, ⟨{0}, 1⟩, ⟨{1}, 1⟩] none).has_unit_weights = true
       then ""
       else "\ntotal weight: " ++
         toString (Profile.mk [0, 1] ["0", "1"]
           [⟨{0}, 1⟩, ⟨{0}, 1⟩, ⟨{1}, 1⟩] none).totalweight) ++
      "\n" :=
  C8_str_compact.2.2.1 (Profile.mk [0, 1] ["0", "1"]
    [⟨{0}, 1⟩, ⟨{0}, 1⟩, ⟨{1}, 1⟩] none) (by simp)

/-! ### Empty-profile rendering -/

theorem strip2_append_of_data {t u : String} (s : String) (c1 c2 : Char)
    (h : t.data = u.data ++ [c1, c2]) : strip2 (s ++ t) = s ++ u := by
  apply string_ext
  rw [strip2_data, data_append, h, data_append,
    show s.data ++ (u.data ++ [c1, c2]) = ((s.data ++ u.data) ++ [c1]) ++ [c2] by simp,
    List.dropLast_concat, List.dropLast_concat]

theorem empty_append_str (s : String) : "" ++ s = s := by
  apply string_ext
  rw [data_append]
  rfl

/-- **C10.**  For a profile with zero voters, both `str()` and `str_compact()`
strip the final two characters (`":\n"`) of the header line itself, because the
trailing-separator strip is applied unconditionally: the full-form output is
`"profile with 0 votes and {num_cand} candidates"` without the closing colon
and newline, and the compact form is the same followed by a newline. -/
theorem C10_empty_profile_str (n : Int) (names : Option (List String))
    (p : Profile) (h : Profile.init n names = .ok p) :
    p.pyStr = "profile with 0 votes and " ++ toString p.numCand ++ " candidates" ∧
    p.str_compact =
      "profile with 0 votes and " ++ toString p.numCand ++ " candidates" ++ "\n" := by
  obtain ⟨hv, _, _⟩ := init_ok h
  have hu : p.has_unit_weights = true := by
    rw [Profile.has_unit_weights, hv]
    rfl
  have hpre : ("profile with " ++ toString (List.length ([] : List Voter)) ++
      " votes and ") = "profile with 0 votes and " := by decide
  have hdata : (" candidates:\n" : String).data =
      (" candidates" : String).data ++ [':', Char.ofNat 10] := by decide
  constructor
  · simp only [Profile.pyStr, hv, if_pos hu, List.foldl_nil]
    rw [hpre]
    exact strip2_append_of_data _ ':' (Char.ofNat 10) hdata
  · simp only [Profile.str_compact, hv, if_pos hu, List.foldl_nil]
    rw [show compactGroups [] = [] from rfl, List.foldl_nil, empty_append_str, hpre]
    rw [strip2_append_of_data _ ':' (Char.ofNat 10) hdata]

/-- Witness for C10 at a concrete 3-candidate empty profile. -/
theorem C10_witness :
    (Profile.mk [0, 1, 2] ["0", "1", "2"] [] none).pyStr =
      "profile with 0 votes and 3 candidates" ∧
    (Profile.mk [0, 1, 2] ["0", "1", "2"] [] none).str_compact =
      "profile with 0 votes and 3 candidates\n" := by
  have h := C10_empty_profile_str 3 none
    (Profile.mk [0, 1, 2] ["0", "1", "2"] [] none) rfl
  constructor
  · rw [h.1]
    decide
  · rw [h.2]
    decide

/-! ### Copy isolation (heap model) -/

/-- **C9.**  Copy isolation of insertion, in the heap model: the fresh voter's
approval-set object is a new address distinct from the caller's object and from
every (live) stored voter's object; reading it yields the contents the caller's
object had at insertion time, and still does after the caller's object is later
mutated; and address-distinctness of the stored voters is preserved, so two
stored voters never share one approval-set object. -/
theorem C9_copy_isolation (hp : Heap) (stored : List VoterRef) (callerRef : Nat)
    (w : ℚ) (hc : hp.valid callerRef) :
    (addVoterH hp stored callerRef w).2 =
      stored ++ [⟨hp.sets.length, w⟩] ∧
    hp.sets.length ≠ callerRef ∧
    (∀ r ∈ stored, hp.valid r.approvedRef → r.approvedRef ≠ hp.sets.length) ∧
    (addVoterH hp stored callerRef w).1.read hp.sets.length = hp.read callerRef ∧
    (∀ s' : Finset Int,
      (((addVoterH hp stored callerRef w).1.write callerRef s').read
        hp.sets.length) = hp.read callerRef) ∧
    ((stored.map VoterRef.approvedRef).Nodup →
      (∀ r ∈ stored, hp.valid r.approvedRef) →
      ((addVoterH hp stored callerRef w).2.map VoterRef.approvedRef).Nodup) := by
  have hfresh : (addVoterH hp stored callerRef w).1.read hp.sets.length =
      hp.read callerRef := by
    rw [addVoterH, Heap.read, List.getD_eq_getD_get?, Heap.alloc]
    rw [List.get?_concat_length]
    rfl
  refine ⟨rfl, fun he => absurd (he ▸ hc) (lt_irrefl _), ?_, hfresh, ?_, ?_⟩
  · intro r hr hv he
    rw [Heap.valid, he] at hv
    exact absurd hv (lt_irrefl _)
  · intro s'
    rw [Heap.read, Heap.write, List.getD_eq_getD_get?]
    rw [List.get?_set_ne _ _ (fun he => absurd (he ▸ hc) (lt_irrefl _))]
    rw [← List.getD_eq_getD_get?, ← Heap.read]
    exact hfresh
  · intro hnd hvalid
    rw [show (addVoterH hp stored callerRef w).2 =
      stored ++ [⟨hp.sets.length, w⟩] from rfl]
    rw [List.map_append, List.map_singleton]
    apply List.Nodup.append hnd (List.nodup_singleton _)
    intro a ha hb
    rcases List.mem_map.mp ha with ⟨r, hr, rfl⟩
    have heq : r.approvedRef = hp.sets.length := List.mem_singleton.mp hb
    have hlt := hvalid r hr
    rw [Heap.valid, heq] at hlt
    exact absurd hlt (lt_irrefl _)

/-- Witness for C9 at a concrete one-object heap. -/
theorem C9_witness :
    ((addVoterH ⟨[{1, 2}]⟩ [] 0 1).1.write 0 {5}).read
      (Heap.sets ⟨[{1, 2}]⟩).length = Heap.read ⟨[{1, 2}]⟩ 0 ∧
    Heap.read ⟨[{1, 2}]⟩ 0 = {1, 2} := by
  refine ⟨(C9_copy_isolation ⟨[{1, 2}]⟩ [] 0 1 (by simp [Heap.valid])).2.2.2.2.1 {5}, ?_⟩
  decide

end Abc
